import Mathlib

/-
  Verification development for the CDTV and RC5/CDI infrared codec
  (files ir_CDTV.hpp and ir_RC5_CDI.hpp of the Arduino-IRremote fork).

  The decoders and encoders of the two protocol files are embedded as pure
  Lean functions.  A raw pulse train is a list of unsigned microsecond
  durations; index 0 is the leading capture gap, odd indices are marks and
  even indices are spaces, exactly as in the rawbuf array of the source.
  The mutable decodedIRData record becomes an explicit IRData value that is
  threaded through the decode functions; the shared engines that live
  outside the two protocol files (timing matcher, pulse-distance engine,
  biphase engine) are modelled from the specification, as noted on each of
  their definitions.
-/

/-- Modelled from the spec: the Timing Matcher (MATCH_MARK / MATCH_SPACE in
the source, implemented outside the two protocol files).  A measured
duration matches a nominal duration when it falls in a symmetric relative
tolerance band around the nominal value, with a minimum absolute margin for
capture quantization; a measured duration of zero never matches.  The
band of 25 percent with a 50 microsecond floor is the tunable policy of the
engine; the theorems below depend only on the band being symmetric and
containing the nominal value itself. -/
def matchDuration (aMeasured aNominal : Nat) : Bool :=
  let tol := max (aNominal * 25 / 100) 50
  0 < aMeasured && aNominal - tol ≤ aMeasured && aMeasured ≤ aNominal + tol

/-- One call to the transmitter interface: a carrier burst, a pause, or a
blocking delay between repeated frames (durations in microseconds, delays
in milliseconds). -/
inductive TxCall where
  | mark (us : Nat)
  | space (us : Nat)
  | delayMillis (ms : Nat)
  deriving DecidableEq, Repr

/-- Duration in microseconds carried by a mark or space transmitter call. -/
def durOf : TxCall → Nat
  | .mark us => us
  | .space us => us
  | .delayMillis _ => 0

/-- Reading rawbuf at an index; indices beyond the recorded length yield 0,
which the timing matcher never accepts. -/
def rawAt (train : List Nat) (i : Nat) : Nat :=
  train.getD i 0

/-- Protocol identifiers relevant to the two decoders. -/
inductive IRProtocol where
  | UNKNOWN
  | CDTV
  | RC5_CDI
  deriving DecidableEq, Repr

/-- The flag set of decodedIRData: is-repeat, toggle bit, msb-first. -/
structure IRFlags where
  isRepeat : Bool
  toggleBit : Bool
  msbFirst : Bool
  deriving DecidableEq, Repr

/-- The fields of decodedIRData that the two decoders read or write. -/
structure IRData where
  protocol : IRProtocol
  decodedRawData : Nat
  numberOfBits : Nat
  address : Nat
  command : Nat
  flags : IRFlags
  deriving DecidableEq, Repr

/-- A fresh frame as handed to a decode attempt. -/
def initialIRData : IRData :=
  ⟨IRProtocol.UNKNOWN, 0, 0, 0, 0, ⟨false, false, false⟩⟩

/-! ## CDTV constants (ir_CDTV.hpp) -/

def CDTV_BITS : Nat := 24

def CDTV_HDR_MARK : Nat := 8850

def CDTV_HDR_SPACE : Nat := 4450

def CDTV_BIT_MARK : Nat := 350

def CDTV_ONE_SPACE : Nat := 1250

def CDTV_ZERO_SPACE : Nat := 450

def CDTV_RPT_SPACE : Nat := 2250

def CDTV_RAW_REPEAT_LENGTH : Nat := 4

def CDTV_RAW_SIGNAL_LENGTH : Nat := 52

/-- The declarative protocol-constants record of the pulse-distance/width
engine (struct PulseDistanceWidthProtocolConstants). -/
structure PulseDistanceWidthProtocolConstants where
  protocol : IRProtocol
  frequencyKHz : Nat
  headerMarkMicros : Nat
  headerSpaceMicros : Nat
  oneMarkMicros : Nat
  oneSpaceMicros : Nat
  zeroMarkMicros : Nat
  zeroSpaceMicros : Nat
  isMSBFirst : Bool
  repeatPeriodMillis : Nat
  deriving DecidableEq, Repr

/-- CDTVProtocolConstants from ir_CDTV.hpp. -/
def CDTVProtocolConstants : PulseDistanceWidthProtocolConstants :=
  ⟨IRProtocol.CDTV, 40, CDTV_HDR_MARK, CDTV_HDR_SPACE, CDTV_BIT_MARK, CDTV_ONE_SPACE,
    CDTV_BIT_MARK, CDTV_ZERO_SPACE, true, 50000 / 1000⟩

/-! ## sendCDTV -/

/-- The bits of a value from position n-1 down to position 0, most
significant first: the order in which the mask loop of sendCDTV visits
them (mask starts at 1UL shifted left by nbits-1 and shifts right). -/
def bitsMsbFirst (data : Nat) : Nat → List Bool
  | 0 => []
  | n + 1 => data.testBit n :: bitsMsbFirst data n

/-- The mark/space pairs emitted by the data loop of sendCDTV for the bits
n-1 down to 0 of data.  Iteration i of the source loop tests data against
the mask 1UL shifted left by i, which is Nat.testBit data i. -/
def cdtvDataCalls (data : Nat) : Nat → List TxCall
  | 0 => []
  | n + 1 =>
      TxCall.mark CDTV_BIT_MARK
        :: TxCall.space (if data.testBit n then CDTV_ONE_SPACE else CDTV_ZERO_SPACE)
        :: cdtvDataCalls data n

/-- Result of an encode call: the requested carrier frequency and the
sequence of transmitter calls. -/
structure SendOutput where
  carrierKHz : Nat
  calls : List TxCall
  deriving DecidableEq, Repr

/-- IRsend::sendCDTV.  Emits the header, one mark/space pair per data bit
most significant first, and the footer mark followed by a zero space.
The C++ source performs no validation of nbits: the header and footer are
emitted unconditionally.  For nbits = 0 or nbits greater than 32 the C++
shift 1UL << (nbits - 1) is undefined behaviour; the data loop of this
model is meaningful only for 1 ≤ nbits ≤ 32, and theorems about invalid
nbits rely only on the unconditional header and footer emission. -/
def sendCDTV (data : Nat) (nbits : Nat) : SendOutput :=
  ⟨40,
    TxCall.mark CDTV_HDR_MARK
      :: TxCall.space CDTV_HDR_SPACE
      :: (cdtvDataCalls data nbits ++ [TxCall.mark CDTV_BIT_MARK, TxCall.space 0])⟩

/-! ## Pulse-distance/width decoding engine -/

/-- Bit loop of the pulse-distance/width engine.  For each remaining bit it
verifies the mark at the cursor and classifies the following space, first
against the one nominals and then against the zero nominals, failing when
neither pair matches; bits accumulate according to the declared bit order
(most significant first shifts the accumulator left; least significant
first inserts at the top position of the declared width). -/
def decodePDWLoop (c : PulseDistanceWidthProtocolConstants) (train : List Nat)
    (totalBits : Nat) : Nat → Nat → Nat → Option Nat
  | _, 0, acc => some acc
  | offset, n + 1, acc =>
      let m := rawAt train offset
      let s := rawAt train (offset + 1)
      if matchDuration m c.oneMarkMicros && matchDuration s c.oneSpaceMicros then
        decodePDWLoop c train totalBits (offset + 2) n
          (if c.isMSBFirst then 2 * acc + 1 else acc / 2 + 2 ^ (totalBits - 1))
      else if matchDuration m c.zeroMarkMicros && matchDuration s c.zeroSpaceMicros then
        decodePDWLoop c train totalBits (offset + 2) n
          (if c.isMSBFirst then 2 * acc else acc / 2)
      else
        none

/-- Modelled from the spec: IRrecv::decodePulseDistanceWidthData, the
decode half of the pulse-distance/width engine (implemented outside the
two protocol files).  Starting at the given raw offset it decodes the
requested number of bits and, on success, returns the accumulated raw
value; on any bit mismatch it fails and returns nothing.  The header and
length checks described for the engine are performed by the caller
decodeCDTV in this repository, which passes the offset of the first bit
mark; on success the caller stores the returned value and the bit count in
the working frame, as the spec describes for the engine. -/
def decodePulseDistanceWidthData (c : PulseDistanceWidthProtocolConstants)
    (train : List Nat) (aNumberOfBits : Nat) (aStartOffset : Nat) : Option Nat :=
  decodePDWLoop c train aNumberOfBits aStartOffset aNumberOfBits 0

/-! ## decodeCDTV -/

/-- IRrecv::decodeCDTV.  Mirrors the source line by line: header mark
check, the 4-entry repeat branch, the exact length check for 52 entries,
the header space check, the pulse-distance engine at offset 3, and the
checksum step.  The checksum condition reproduces the C++ operator
precedence of the line  if (lo^hi == 0xFFF) : equality binds tighter than
xor, so the code tests  lo XOR (hi == 0xFFF)  for being nonzero, not
lo XOR hi  for being 0xFFF as the adjacent comment states. -/
def decodeCDTV (train : List Nat) (d : IRData) : Bool × IRData :=
  if ¬ matchDuration (rawAt train 1) CDTV_HDR_MARK then
    (false, d)
  else if train.length = CDTV_RAW_REPEAT_LENGTH
      ∧ matchDuration (rawAt train 1) CDTV_HDR_MARK
      ∧ matchDuration (rawAt train 2) CDTV_RPT_SPACE then
    (true, { d with numberOfBits := 4, command := 0xFFFFFF, protocol := IRProtocol.CDTV })
  else if train.length ≠ CDTV_RAW_SIGNAL_LENGTH then
    (false, d)
  else if ¬ matchDuration (rawAt train 2) CDTV_HDR_SPACE then
    (false, d)
  else
    match decodePulseDistanceWidthData CDTVProtocolConstants train CDTV_BITS 3 with
    | none => (false, d)
    | some raw =>
        let d1 := { d with decodedRawData := raw, numberOfBits := CDTV_BITS }
        let lo := raw &&& 0xFFF
        let hi := raw >>> 12
        if lo ^^^ (if hi = 0xFFF then 1 else 0) ≠ 0 then
          (true, { d1 with numberOfBits := CDTV_BITS, protocol := IRProtocol.CDTV })
        else
          (false, d1)

/-- The raw pulse train produced by receiving the emission of sendCDTV:
the capture gap entry, then the emitted durations; the terminating space
of duration zero is not a pulse and leaves no rawbuf entry, so it is
dropped.  For 24 bits this train has exactly 52 entries. -/
def cdtvRawTrainOf (v : Nat) : List Nat :=
  0 :: ((sendCDTV v CDTV_BITS).calls.dropLast.map durOf)


/-! ## RC5 / CDI constants (ir_RC5_CDI.hpp) -/

def RC5_CDI_ADDRESS_BITS : Nat := 5

def RC5_CDI_COMMAND_BITS : Nat := 6

def RC5_CDI_TOGGLE_BIT : Nat := 1

def RC5_CDI_COMMAND_FIELD_BIT : Nat := 1

def RC5_CDI_BITS : Nat :=
  RC5_CDI_COMMAND_FIELD_BIT + RC5_CDI_TOGGLE_BIT + RC5_CDI_ADDRESS_BITS + RC5_CDI_COMMAND_BITS

def RC5_CDI_UNIT : Nat := 450

def RC5_CDI_DURATION : Nat := 15 * RC5_CDI_UNIT

def RC5_CDI_REPEAT_PERIOD : Nat := 128 * RC5_CDI_UNIT

def RC5_CDI_REPEAT_DISTANCE : Nat := RC5_CDI_REPEAT_PERIOD - RC5_CDI_DURATION

def RC5_CDI_MAXIMUM_REPEAT_DISTANCE : Nat :=
  RC5_CDI_REPEAT_DISTANCE + RC5_CDI_REPEAT_DISTANCE / 4

def MICROS_IN_ONE_MILLI : Nat := 1000

/-- Modelled from the spec: the RC5/CDI carrier frequency constant
RC5_CDI_KHZ, declared outside the two protocol files; the standard RC5
carrier of 36 kHz. -/
def RC5_CDI_KHZ : Nat := 36

/-- Startup value of the persisted toggle state sCDILastSendToggleValue,
initialised to 1 in ir_RC5_CDI.hpp so that the first automatically toggled
command is sent with toggle bit 0. -/
def sCDILastSendToggleValue : Nat := 1

/-! ## Biphase levels -/

/-- A logical level of the biphase engine: carrier off (space) or
carrier on (mark). -/
inductive BiLevel where
  | space
  | mark
  deriving DecidableEq, Repr

/-- The opposite level. -/
def flipLevel : BiLevel → BiLevel
  | .space => .mark
  | .mark => .space

/-- The level of rawbuf entry i: odd entries are marks, even entries are
spaces (entry 0 is the leading gap). -/
def levelAt (i : Nat) : BiLevel :=
  if i % 2 = 1 then BiLevel.mark else BiLevel.space

/-! ## Biphase decoding engine -/

/-- Cursor state of the biphase decoder: the rawbuf index of the entry
currently being consumed and the number of half-clock cells of that entry
that remain unconsumed (0 means the next entry must be loaded). -/
structure BiphaseState where
  offset : Nat
  unitsLeft : Nat
  deriving DecidableEq, Repr

/-- Modelled from the spec: initBiphaselevel, positioning the cursor past
the leading gap entry at the requested start offset. -/
def initBiphaselevel (aRCDecodeRawbuffOffset : Nat) : BiphaseState :=
  ⟨aRCDecodeRawbuffOffset, 0⟩

/-- Modelled from the spec: the number of half-clock cells a raw duration
spans, when that duration is consistent (tolerance-matched) with a
positive whole number of cells; nothing otherwise. -/
def unitsOf (unit d : Nat) : Option Nat :=
  let k := (d + unit / 2) / unit
  if 1 ≤ k && matchDuration d (k * unit) then some k else none

/-- Modelled from the spec: getBiphaselevel of the biphase engine
(implemented outside the two protocol files).  Returns the logical level
at the next half-clock cell, consuming one cell from the current raw entry
and crossing into the next entry, at the flipped level, when the current
one is exhausted.  It fails when the train ends before a requested level
is available, or when an entry duration is not consistent with a whole
number of half cells. -/
def getBiphaselevel (train : List Nat) (unit : Nat) (st : BiphaseState) :
    Option (BiLevel × BiphaseState) :=
  if st.unitsLeft = 0 then
    if st.offset < train.length then
      match unitsOf unit (rawAt train st.offset) with
      | some k =>
          some (levelAt st.offset,
            if k = 1 then ⟨st.offset + 1, 0⟩ else ⟨st.offset, k - 1⟩)
      | none => none
    else
      none
  else
    some (levelAt st.offset,
      if st.unitsLeft = 1 then ⟨st.offset + 1, 0⟩ else ⟨st.offset, st.unitsLeft - 1⟩)

/-! ## Biphase encoding -/

/-- The two half-cell levels of one biphase bit: a space-to-mark
transition encodes 1, a mark-to-space transition encodes 0. -/
def bitHalfCells (b : Bool) : List BiLevel :=
  if b then [BiLevel.space, BiLevel.mark] else [BiLevel.mark, BiLevel.space]

/-- The half-cell level sequence of one RC5/CDI frame: the mandatory
start-bit mark followed by the two half cells of each of the 13 data bits,
most significant first. -/
def rc5LevelSeq (w : Nat) : List BiLevel :=
  BiLevel.mark :: (bitsMsbFirst w RC5_CDI_BITS).flatMap bitHalfCells

/-- Maximal runs of equal consecutive levels, with their lengths. -/
def mergeRuns : List BiLevel → List (BiLevel × Nat)
  | [] => []
  | l :: rest =>
      match mergeRuns rest with
      | [] => [(l, 1)]
      | (l2, k) :: rs => if l = l2 then (l, k + 1) :: rs else (l, 1) :: (l2, k) :: rs

/-- Expansion of a run list back into the level sequence it abbreviates. -/
def expandRuns (rs : List (BiLevel × Nat)) : List BiLevel :=
  rs.flatMap fun p => List.replicate p.2 p.1

/-- Modelled from the spec: IRsend::sendBiphaseData (implemented outside
the two protocol files).  Emits the start-bit half cell and then, for each
data bit most significant first, a half cell of one level followed by a
half cell of the opposite level (1 is space then mark, 0 is mark then
space), each half cell lasting one clock unit.  Consecutive half cells at
the same level leave the transmitter in one state and so form a single
mark or space call of the combined duration. -/
def sendBiphaseData (aBiphaseTimeUnit : Nat) (aData : Nat) (aNumberOfBits : Nat) :
    List TxCall :=
  (mergeRuns (BiLevel.mark :: (bitsMsbFirst aData aNumberOfBits).flatMap bitHalfCells)).map
    fun p =>
      match p.1 with
      | BiLevel.mark => TxCall.mark (p.2 * aBiphaseTimeUnit)
      | BiLevel.space => TxCall.space (p.2 * aBiphaseTimeUnit)

/-! ## sendRC5_CDI -/

/-- Result of IRsend::sendRC5_CDI: the composed 13-bit word tIRData that
is handed to the biphase emitter, the new value of the persisted toggle
state sCDILastSendToggleValue, the requested carrier, and the emitted
transmitter calls. -/
structure RC5SendResult where
  tIRData : Nat
  toggleValue : Nat
  carrierKHz : Nat
  calls : List TxCall
  deriving DecidableEq, Repr

/-- The frame loop of sendRC5_CDI: tNumberOfCommands frames, with the
fixed repeat-distance delay after every frame but the last. -/
def rc5FrameCalls (w : Nat) : Nat → List TxCall
  | 0 => []
  | 1 => sendBiphaseData RC5_CDI_UNIT w RC5_CDI_BITS
  | n + 2 =>
      sendBiphaseData RC5_CDI_UNIT w RC5_CDI_BITS
        ++ TxCall.delayMillis (RC5_CDI_REPEAT_DISTANCE / MICROS_IN_ONE_MILLI)
        :: rc5FrameCalls w (n + 1)

/-- IRsend::sendRC5_CDI.  Composes the 13-bit word from the address (low
five bits at bit 6), the command, and the field and toggle bits: commands
below 0x40 set the field bit (bit 12), larger commands are masked to six
bits and leave the field bit clear; when automatic toggling is enabled the
persisted toggle state flips and the toggle bit (bit 11) is set exactly
when the new state is 1.  The word is then emitted aNumberOfRepeats + 1
times by the biphase engine, which also sends the start bit.  The
persisted static sCDILastSendToggleValue is threaded explicitly: the
caller passes its current value and receives the new value in the
result. -/
def sendRC5_CDI (aAddress aCommand : Nat) (aNumberOfRepeats : Nat)
    (aEnableAutomaticToggle : Bool) (lastToggleValue : Nat) : RC5SendResult :=
  let tIRData := (aAddress &&& 0x1F) <<< RC5_CDI_COMMAND_BITS
  let fieldShift := RC5_CDI_TOGGLE_BIT + RC5_CDI_ADDRESS_BITS + RC5_CDI_COMMAND_BITS
  let toggleShift := RC5_CDI_ADDRESS_BITS + RC5_CDI_COMMAND_BITS
  let (tIRData, tCommand) :=
    if aCommand < 0x40 then (tIRData ||| (1 <<< fieldShift), aCommand)
    else (tIRData, aCommand &&& 0x3F)
  let tIRData := tIRData ||| tCommand
  let (newToggle, tIRData) :=
    if aEnableAutomaticToggle then
      if lastToggleValue = 0 then (1, tIRData ||| (1 <<< toggleShift))
      else (0, tIRData)
    else
      (lastToggleValue, tIRData)
  ⟨tIRData, newToggle, RC5_CDI_KHZ, rc5FrameCalls tIRData (aNumberOfRepeats + 1)⟩

/-! ## decodeRC5_CDI -/

/-- The length check of decodeRC5_CDI, verbatim from the source: the train
is rejected when its length is below (RC5_CDI_BITS + 1) / 2 + 2 = 9 and at
the same time above RC5_CDI_BITS + 2 = 15. -/
def rc5LengthCheckRejects (rawlen : Nat) : Bool :=
  decide (rawlen < (RC5_CDI_BITS + 1) / 2 + 2) && decide (RC5_CDI_BITS + 2 < rawlen)

/-- The data-bit loop of decodeRC5_CDI: while the biphase cursor has not
passed the end of the train, read two levels, classify the transition
(space to mark is 1, mark to space is 0, anything else fails), and shift
the bit into the accumulator; returns the bit count and the accumulator.
The fuel argument only bounds the recursion: decodeRC5_CDI passes more
fuel than any train can consume, since every loop iteration uses two
half-clock cells and an entry of duration d never spans more than d
cells. -/
def rc5DecodeLoop (train : List Nat) : Nat → BiphaseState → Nat → Nat →
    Option (Nat × Nat)
  | 0, _, _, _ => none
  | fuel + 1, st, tBitIndex, acc =>
      if st.offset < train.length then
        match getBiphaselevel train RC5_CDI_UNIT st with
        | none => none
        | some (tStartLevel, st1) =>
            match getBiphaselevel train RC5_CDI_UNIT st1 with
            | none => none
            | some (tEndLevel, st2) =>
                if tStartLevel = BiLevel.space ∧ tEndLevel = BiLevel.mark then
                  rc5DecodeLoop train fuel st2 (tBitIndex + 1) (2 * acc + 1)
                else if tStartLevel = BiLevel.mark ∧ tEndLevel = BiLevel.space then
                  rc5DecodeLoop train fuel st2 (tBitIndex + 1) (2 * acc)
                else
                  none
      else
        some (tBitIndex, acc)

/-- IRrecv::decodeRC5_CDI.  Mirrors the source: biphase initialisation
past the gap entry, the (unsatisfiable) length check, the start-bit check
that the first level is a mark, the transition loop, and on success the
field extraction: command is the low six bits plus 0x40 when the field bit
(bit 12) is clear, address is bits 6 to 10, the toggle flag is bit 11, and
the repeat flag is the verdict of the time-tracking collaborator
(checkForRepeatSpaceTicksAndSetFlag), passed in as
tElapsedWithinRepeatWindow.  A failed getBiphaselevel cannot yield a mark,
so it fails the start-bit check or the transition check exactly as in the
source. -/
def decodeRC5_CDI (train : List Nat) (d : IRData)
    (tElapsedWithinRepeatWindow : Bool) : Bool × IRData :=
  let st0 := initBiphaselevel 1
  if rc5LengthCheckRejects train.length then
    (false, d)
  else
    match getBiphaselevel train RC5_CDI_UNIT st0 with
    | none => (false, d)
    | some (lv, st1) =>
        if lv ≠ BiLevel.mark then
          (false, d)
        else
          match rc5DecodeLoop train (train.sum + train.length + 2) st1 0 0 with
          | none => (false, d)
          | some (tBitIndex, raw) =>
              (true,
                { d with
                  numberOfBits := tBitIndex
                  decodedRawData := raw
                  command :=
                    (raw &&& 0x3F) + (if raw &&& (1 <<< 12) = 0 then 0x40 else 0)
                  address := (raw >>> RC5_CDI_COMMAND_BITS) &&& 0x1F
                  flags := ⟨tElapsedWithinRepeatWindow, raw &&& (1 <<< 11) ≠ 0, true⟩
                  protocol := IRProtocol.RC5_CDI })

/-- The raw pulse train produced by receiving one frame of the biphase
emission: the capture gap entry followed by the emitted mark and space
durations. -/
def rc5RawTrainOf (w : Nat) : List Nat :=
  0 :: (sendBiphaseData RC5_CDI_UNIT w RC5_CDI_BITS).map durOf

/-! ## Proof infrastructure: the level sequence seen by the biphase cursor -/

/-- The half-cell levels contributed by the entries of the train from a
given index to the end; nothing when some entry duration is inconsistent
with a whole number of cells. -/
def expandFrom (train : List Nat) (unit : Nat) (off : Nat) : Option (List BiLevel) :=
  if _h : off < train.length then
    match unitsOf unit (rawAt train off) with
    | some k => (expandFrom train unit (off + 1)).map (List.replicate k (levelAt off) ++ ·)
    | none => none
  else
    some []
termination_by train.length - off

/-- The half-cell levels still ahead of a biphase cursor state. -/
def stateLevels (train : List Nat) (unit : Nat) (st : BiphaseState) :
    Option (List BiLevel) :=
  if st.unitsLeft = 0 then
    expandFrom train unit st.offset
  else
    (expandFrom train unit (st.offset + 1)).map
      (List.replicate st.unitsLeft (levelAt st.offset) ++ ·)

/-- Well-formedness of a biphase cursor state: a partially consumed entry
lies inside the train. -/
def WfSt (train : List Nat) (st : BiphaseState) : Prop :=
  st.unitsLeft = 0 ∨ st.offset < train.length

/-- The pure counterpart of the transition loop of decodeRC5_CDI, acting
on the level sequence directly. -/
def levelPairsLoop : List BiLevel → Nat → Nat → Option (Nat × Nat)
  | [], tBitIndex, acc => some (tBitIndex, acc)
  | _ :: [], _, _ => none
  | s1 :: s2 :: rest, tBitIndex, acc =>
      if s1 = BiLevel.space ∧ s2 = BiLevel.mark then
        levelPairsLoop rest (tBitIndex + 1) (2 * acc + 1)
      else if s1 = BiLevel.mark ∧ s2 = BiLevel.space then
        levelPairsLoop rest (tBitIndex + 1) (2 * acc)
      else
        none

/-- Invariant for the round-trip proofs: the runs of a run list occupy
consecutive rawbuf indices starting at i, each carrying the level that the
parity of its index dictates and a positive cell count. -/
def LevelsFrom : List (BiLevel × Nat) → Nat → Prop
  | [], _ => True
  | p :: rs, i => p.1 = levelAt i ∧ 1 ≤ p.2 ∧ LevelsFrom rs (i + 1)


/-! ## Basic lemmas about the send side -/

theorem cdtvDataCalls_length (data : Nat) : ∀ n, (cdtvDataCalls data n).length = 2 * n := by
  intro n
  induction n with
  | zero => rfl
  | succ n ih => simp [cdtvDataCalls, ih]; omega

theorem cdtvDataCalls_eq_flatMap (data : Nat) : ∀ n,
    cdtvDataCalls data n =
      (bitsMsbFirst data n).flatMap fun b =>
        [TxCall.mark CDTV_BIT_MARK,
         TxCall.space (if b then CDTV_ONE_SPACE else CDTV_ZERO_SPACE)] := by
  intro n
  induction n with
  | zero => rfl
  | succ n ih => simp [cdtvDataCalls, bitsMsbFirst, ih]

/-! ## Bit accumulation and raw indexing lemmas -/

theorem bitsMsbFirst_length (v : Nat) : ∀ n, (bitsMsbFirst v n).length = n := by
  intro n
  induction n with
  | zero => rfl
  | succ n ih => simp [bitsMsbFirst, ih]

theorem foldBit_eq (v : Nat) : ∀ (n : Nat) (acc : Nat),
    (bitsMsbFirst v n).foldl (fun a b => 2 * a + cond b 1 0) acc
      = acc * 2 ^ n + v % 2 ^ n := by
  intro n
  induction n with
  | zero => intro acc; simp [bitsMsbFirst, Nat.mod_one]
  | succ n ih =>
      intro acc
      have hc : cond (v.testBit n) 1 0 = v / 2 ^ n % 2 := by
        rw [Nat.testBit_to_div_mod]
        rcases Nat.mod_two_eq_zero_or_one (v / 2 ^ n) with h | h <;> simp [h]
      have hmod : v % 2 ^ (n + 1) = v % 2 ^ n + 2 ^ n * (v / 2 ^ n % 2) := by
        rw [Nat.pow_succ, Nat.mod_mul]
      simp only [bitsMsbFirst, List.foldl_cons]
      rw [ih, hc, hmod, Nat.pow_succ]
      ring

theorem rc5LengthCheckRejects_false (rawlen : Nat) :
    rc5LengthCheckRejects rawlen = false := by
  have h13 : RC5_CDI_BITS = 13 := rfl
  simp only [rc5LengthCheckRejects, h13, Bool.and_eq_false_iff, decide_eq_false_iff_not]
    <;> omega

theorem rawAt_append_left (l1 l2 : List Nat) (i : Nat) (h : i < l1.length) :
    rawAt (l1 ++ l2) i = rawAt l1 i := by
  simp only [rawAt, List.getD_eq_getElem?_getD, List.getElem?_append_left h]

theorem rawAt_append_right (pre l : List Nat) (i : Nat) :
    rawAt (pre ++ l) (pre.length + i) = rawAt l i := by
  simp only [rawAt, List.getD_eq_getElem?_getD]
  rw [List.getElem?_append_right (Nat.le_add_right _ _)]
  simp

theorem rawAt_append_zero (pre : List Nat) (x : Nat) (l : List Nat) :
    rawAt (pre ++ x :: l) pre.length = x := by
  have h := rawAt_append_right pre (x :: l) 0
  simpa [rawAt] using h

theorem rawAt_append_one (pre : List Nat) (x y : Nat) (l : List Nat) :
    rawAt (pre ++ x :: y :: l) (pre.length + 1) = y := by
  have h := rawAt_append_right pre (x :: y :: l) 1
  simpa [rawAt] using h

theorem cdtvDataCalls_map_durOf (v : Nat) : ∀ n,
    (cdtvDataCalls v n).map durOf
      = (bitsMsbFirst v n).flatMap fun b =>
          [CDTV_BIT_MARK, if b then CDTV_ONE_SPACE else CDTV_ZERO_SPACE] := by
  intro n
  induction n with
  | zero => rfl
  | succ n ih => simp [cdtvDataCalls, bitsMsbFirst, durOf, ih]

theorem flatPairs_length (bits : List Bool) :
    ((bits.flatMap fun b =>
        [CDTV_BIT_MARK, if b then CDTV_ONE_SPACE else CDTV_ZERO_SPACE])).length
      = 2 * bits.length := by
  induction bits with
  | nil => rfl
  | cons b bs ih =>
      simp only [List.flatMap_cons, List.length_append, List.length_cons,
        List.length_nil, ih]
      omega

/-! ## Pulse-distance/width engine round trip -/

theorem decodePDWLoop_pairs : ∀ (bits : List Bool) (pre post : List Nat) (acc : Nat),
    decodePDWLoop CDTVProtocolConstants
        (pre ++ ((bits.flatMap fun b =>
            [CDTV_BIT_MARK, if b then CDTV_ONE_SPACE else CDTV_ZERO_SPACE]) ++ post))
        CDTV_BITS pre.length bits.length acc
      = some (bits.foldl (fun a b => 2 * a + cond b 1 0) acc) := by
  intro bits
  induction bits with
  | nil =>
      intro pre post acc
      rfl
  | cons b bs ih =>
      intro pre post acc
      cases b
      · have hstep := ih (pre ++ [CDTV_BIT_MARK, CDTV_ZERO_SPACE]) post (2 * acc)
        simp only [List.append_assoc, List.cons_append, List.nil_append,
          List.length_append, List.length_cons, List.length_nil] at hstep
        norm_num at hstep
        have hm := rawAt_append_zero pre CDTV_BIT_MARK (CDTV_ZERO_SPACE ::
          ((bs.flatMap fun x =>
            [CDTV_BIT_MARK, if x then CDTV_ONE_SPACE else CDTV_ZERO_SPACE]) ++ post))
        have hs := rawAt_append_one pre CDTV_BIT_MARK CDTV_ZERO_SPACE
          ((bs.flatMap fun x =>
            [CDTV_BIT_MARK, if x then CDTV_ONE_SPACE else CDTV_ZERO_SPACE]) ++ post)
        simp only [List.flatMap_cons, Bool.false_eq_true, if_false, List.cons_append,
          List.nil_append, List.append_assoc, List.length_cons, List.foldl_cons,
          cond_false, Nat.add_zero]
        simp only [decodePDWLoop, hm, hs]
        norm_num [CDTVProtocolConstants,
          (by decide : matchDuration CDTV_BIT_MARK CDTV_BIT_MARK = true),
          (by decide : matchDuration CDTV_ZERO_SPACE CDTV_ONE_SPACE = false),
          (by decide : matchDuration CDTV_ZERO_SPACE CDTV_ZERO_SPACE = true)]
        exact hstep
      · have hstep := ih (pre ++ [CDTV_BIT_MARK, CDTV_ONE_SPACE]) post (2 * acc + 1)
        simp only [List.append_assoc, List.cons_append, List.nil_append,
          List.length_append, List.length_cons, List.length_nil] at hstep
        norm_num at hstep
        have hm := rawAt_append_zero pre CDTV_BIT_MARK (CDTV_ONE_SPACE ::
          ((bs.flatMap fun x =>
            [CDTV_BIT_MARK, if x then CDTV_ONE_SPACE else CDTV_ZERO_SPACE]) ++ post))
        have hs := rawAt_append_one pre CDTV_BIT_MARK CDTV_ONE_SPACE
          ((bs.flatMap fun x =>
            [CDTV_BIT_MARK, if x then CDTV_ONE_SPACE else CDTV_ZERO_SPACE]) ++ post)
        simp only [List.flatMap_cons, if_pos, List.cons_append,
          List.nil_append, List.append_assoc, List.length_cons, List.foldl_cons,
          cond_true]
        simp only [decodePDWLoop, hm, hs]
        norm_num [CDTVProtocolConstants,
          (by decide : matchDuration CDTV_BIT_MARK CDTV_BIT_MARK = true),
          (by decide : matchDuration CDTV_ONE_SPACE CDTV_ONE_SPACE = true)]
        exact hstep

/-- The accepted checksum condition of the compiled code holds whenever the
documented checksum rule holds. -/
theorem cdtv_checksum_valid_neq (raw : Nat)
    (hchk : (raw &&& 0xFFF) ^^^ (raw >>> 12) = 0xFFF) :
    raw &&& 0xFFF ≠ (if raw >>> 12 = 0xFFF then 1 else 0) := by
  by_cases hhi : raw >>> 12 = 0xFFF
  · have hlo : raw &&& 0xFFF = 0 := by
      rw [hhi] at hchk
      have h2 : (raw &&& 0xFFF) ^^^ 0xFFF ^^^ 0xFFF = 0xFFF ^^^ 0xFFF := by
        rw [hchk]
      simpa [Nat.xor_assoc] using h2
    simp [hhi, hlo]
  · have hlo : raw &&& 0xFFF ≠ 0 := by
      intro h0
      rw [h0, Nat.zero_xor] at hchk
      exact hhi hchk
    simpa [hhi] using hlo

/-- Round trip of sendCDTV through decodeCDTV for every checksum-valid
24-bit value: decoding the received train reconstructs the value exactly
and fills the frame. -/
theorem decodeCDTV_roundtrip (v : Nat) (d : IRData) (hv : v < 2 ^ CDTV_BITS)
    (hchk : (v &&& 0xFFF) ^^^ (v >>> 12) = 0xFFF) :
    decodeCDTV (cdtvRawTrainOf v) d
      = (true, { d with decodedRawData := v, numberOfBits := CDTV_BITS,
                        protocol := IRProtocol.CDTV }) := by
  have hsplit : (sendCDTV v CDTV_BITS).calls
      = (TxCall.mark CDTV_HDR_MARK :: TxCall.space CDTV_HDR_SPACE ::
          (cdtvDataCalls v CDTV_BITS ++ [TxCall.mark CDTV_BIT_MARK])) ++ [TxCall.space 0] := by
    simp [sendCDTV]
  have htrain : cdtvRawTrainOf v
      = [0, CDTV_HDR_MARK, CDTV_HDR_SPACE]
          ++ (((bitsMsbFirst v CDTV_BITS).flatMap fun b =>
                [CDTV_BIT_MARK, if b then CDTV_ONE_SPACE else CDTV_ZERO_SPACE])
              ++ [CDTV_BIT_MARK]) := by
    rw [cdtvRawTrainOf, hsplit, List.dropLast_concat]
    simp [durOf, cdtvDataCalls_map_durOf]
  have hlen : (cdtvRawTrainOf v).length = CDTV_RAW_SIGNAL_LENGTH := by
    rw [htrain, List.length_append, List.length_append, flatPairs_length,
      bitsMsbFirst_length]
    decide
  have hr1 : rawAt (cdtvRawTrainOf v) 1 = CDTV_HDR_MARK := by
    rw [htrain, rawAt_append_left _ _ 1 (by simp)]
    rfl
  have hr2 : rawAt (cdtvRawTrainOf v) 2 = CDTV_HDR_SPACE := by
    rw [htrain, rawAt_append_left _ _ 2 (by simp)]
    rfl
  have hm1 : matchDuration (rawAt (cdtvRawTrainOf v) 1) CDTV_HDR_MARK = true := by
    rw [hr1]; decide
  have hm2 : matchDuration (rawAt (cdtvRawTrainOf v) 2) CDTV_HDR_SPACE = true := by
    rw [hr2]; decide
  have heng : decodePulseDistanceWidthData CDTVProtocolConstants (cdtvRawTrainOf v)
      CDTV_BITS 3 = some v := by
    have h := decodePDWLoop_pairs (bitsMsbFirst v CDTV_BITS)
      [0, CDTV_HDR_MARK, CDTV_HDR_SPACE] [CDTV_BIT_MARK] 0
    rw [bitsMsbFirst_length] at h
    simp only [List.length_cons, List.length_nil] at h
    rw [htrain, decodePulseDistanceWidthData]
    rw [show (0 : Nat) + 1 + 1 + 1 = 3 from rfl] at h
    rw [h, foldBit_eq]
    simp [Nat.mod_eq_of_lt hv]
  have hne := cdtv_checksum_valid_neq v hchk
  simp [decodeCDTV, hm1, hm2, hlen, heng, hne,
    CDTV_RAW_SIGNAL_LENGTH, CDTV_RAW_REPEAT_LENGTH]

/-! ## Claim C1 -/

/-- C1, counterexample.  The claim is doubly wrong on the code.  First,
its example is arithmetically inconsistent: for raw value 0x123EDC the low
12 bits are 0xEDC and the high 12 bits are 0x123, and 0xEDC XOR 0x123 is
exactly 0xFFF, so even the documented checksum rule would accept this
train; the embedded decoder indeed accepts it.  Second, the claimed
equivalence (success iff low XOR high = 0xFFF) fails: because == binds
tighter than ^ in C++, the source line  if (lo^hi == 0xFFF)  tests
lo XOR (hi == 0xFFF)  for being nonzero, so the train for raw value
0x000001, whose low XOR high is 1 and not 0xFFF, is also accepted. -/
theorem claim1_counterexample :
    ((0x123EDC &&& 0xFFF) ^^^ (0x123EDC >>> 12)) = 0xFFF
    ∧ (decodeCDTV (cdtvRawTrainOf 0x123EDC) initialIRData).1 = true
    ∧ ((0x000001 &&& 0xFFF) ^^^ (0x000001 >>> 12)) ≠ 0xFFF
    ∧ (decodeCDTV (cdtvRawTrainOf 0x000001) initialIRData).1 = true := by
  decide

/-- C1 as amended: for a 52-entry train whose header timings match and
whose bits the pulse-distance engine decodes to a raw value, decodeCDTV
succeeds exactly when  lo XOR (1 if hi = 0xFFF else 0)  is nonzero, the
condition the C++ operator precedence actually compiles for the source
line  if (lo^hi == 0xFFF) : when hi differs from 0xFFF the train is
accepted iff lo is nonzero, and when hi equals 0xFFF iff lo differs
from 1.  In particular every value the documented rule
lo XOR hi = 0xFFF accepts is accepted, including 0x123EDC, whose
low-12 XOR high-12 is exactly 0xFFF.  A rejection here is a checksum
failure, distinct from a timing failure, which would surface as a failure
of the engine itself. -/
theorem claim1_amended (train : List Nat) (d : IRData) (raw : Nat)
    (hm1 : matchDuration (rawAt train 1) CDTV_HDR_MARK = true)
    (hlen : train.length = CDTV_RAW_SIGNAL_LENGTH)
    (hm2 : matchDuration (rawAt train 2) CDTV_HDR_SPACE = true)
    (heng : decodePulseDistanceWidthData CDTVProtocolConstants train CDTV_BITS 3
        = some raw) :
    ((decodeCDTV train d).1 = true
      ↔ (raw &&& 0xFFF) ^^^ (if raw >>> 12 = 0xFFF then 1 else 0) ≠ 0)
    ∧ ((raw &&& 0xFFF) ^^^ (raw >>> 12) = 0xFFF →
        (decodeCDTV train d).1 = true) := by
  have hkey : (raw &&& 0xFFF) ^^^ (raw >>> 12) = 0xFFF →
      raw &&& 0xFFF ≠ (if raw >>> 12 = 0xFFF then 1 else 0) := by
    intro hchk
    by_cases hhi : raw >>> 12 = 0xFFF
    · have hlo : raw &&& 0xFFF = 0 := by
        rw [hhi] at hchk
        have h2 : (raw &&& 0xFFF) ^^^ 0xFFF ^^^ 0xFFF = 0xFFF ^^^ 0xFFF := by
          rw [hchk]
        simpa [Nat.xor_assoc] using h2
      simp [hhi, hlo]
    · have hlo : raw &&& 0xFFF ≠ 0 := by
        intro h0
        rw [h0, Nat.zero_xor] at hchk
        exact hhi hchk
      simpa [hhi] using hlo
  by_cases hif : raw &&& 0xFFF = (if raw >>> 12 = 0xFFF then 1 else 0)
  · have hdec : (decodeCDTV train d).1 = false := by
      simp [decodeCDTV, hm1, hm2, hlen, heng, hif,
        CDTV_RAW_SIGNAL_LENGTH, CDTV_RAW_REPEAT_LENGTH]
    refine ⟨?_, fun hchk => absurd hif (hkey hchk)⟩
    rw [hdec]
    simp [hif]
  · have hdec : (decodeCDTV train d).1 = true := by
      simp [decodeCDTV, hm1, hm2, hlen, heng, hif,
        CDTV_RAW_SIGNAL_LENGTH, CDTV_RAW_REPEAT_LENGTH]
    refine ⟨?_, fun _ => hdec⟩
    rw [hdec]
    simp [hif]

/-- C1, witness: the amended equivalence applied to the concrete train for
raw value 0x123EDC. -/
theorem claim1_witness :
    (decodeCDTV (cdtvRawTrainOf 0x123EDC) initialIRData).1 = true :=
  (claim1_amended (cdtvRawTrainOf 0x123EDC) initialIRData 0x123EDC (by decide)
    (by decide) (by decide) (by decide)).2 (by decide)

/-! ## Claim C2 -/

/-- C2, counterexample: the encoder called with address 0x11, command 0x36
and toggle 0 does not compose the word 0x0476 claimed by the spec. -/
theorem claim2_counterexample :
    (sendRC5_CDI 0x11 0x36 0 false sCDILastSendToggleValue).tIRData ≠ 0x0476 := by
  decide

/-- C2 as amended: with address 0x11, command 0x36 and toggle bit 0 the
composed 13-bit word is 0x1476 (field bit 1, toggle bit 0, five address
bits 0x11, six command bits 0x36, MSB first), matching the Raw-Data value
documented in the source comment; that word is passed to the biphase
emitter, whose emission begins with the mandatory start-bit mark. -/
theorem claim2_word_is_0x1476 :
    (sendRC5_CDI 0x11 0x36 0 false sCDILastSendToggleValue).tIRData = 0x1476
    ∧ (sendRC5_CDI 0x11 0x36 0 false sCDILastSendToggleValue).calls
        = sendBiphaseData RC5_CDI_UNIT 0x1476 RC5_CDI_BITS
    ∧ (sendBiphaseData RC5_CDI_UNIT 0x1476 RC5_CDI_BITS).head?
        = some (TxCall.mark RC5_CDI_UNIT) := by
  decide

/-! ## Claim C3 -/

/-- C3, counterexample: called with the invalid bit count 0, sendCDTV does
not suppress emission; the header mark and space are emitted
unconditionally before the data loop, so the claim that no mark/space
pulse sequence is emitted on a precondition violation is false (the source
contains no precondition check at all). -/
theorem claim3_counterexample :
    (sendCDTV 0 0).calls ≠ []
    ∧ (sendCDTV 0 0).calls.take 2
        = [TxCall.mark CDTV_HDR_MARK, TxCall.space CDTV_HDR_SPACE] := by
  decide

/-- C3 as amended: sendCDTV performs no bit-count validation and signals
nothing; the header and footer are emitted even for an invalid bit count.
For every valid bit count (0 < nbits ≤ 32, the word width) encode cannot
fail: it always emits the complete train of 2 * nbits + 4 transmitter
calls, beginning with the header pair. -/
theorem claim3_no_precondition_check (data nbits : Nat) (h1 : 0 < nbits)
    (h2 : nbits ≤ 32) :
    (sendCDTV data nbits).calls.length = 2 * nbits + 4
    ∧ (sendCDTV data nbits).calls.take 2
        = [TxCall.mark CDTV_HDR_MARK, TxCall.space CDTV_HDR_SPACE] := by
  refine ⟨?_, rfl⟩
  simp only [sendCDTV, List.length_cons, List.length_append, cdtvDataCalls_length,
    List.length_nil]

/-- C3, witness instantiating the amended theorem at 24 bits. -/
theorem claim3_witness :
    (sendCDTV 0x72A03D 24).calls.length = 2 * 24 + 4
    ∧ (sendCDTV 0x72A03D 24).calls.take 2
        = [TxCall.mark CDTV_HDR_MARK, TxCall.space CDTV_HDR_SPACE] :=
  claim3_no_precondition_check 0x72A03D 24 (by decide) (by decide)

/-! ## Claim C5 -/

/-- C5: the length check of decodeRC5_CDI requires the raw length to be
below 9 and above 15 at the same time, which no length satisfies, so the
check never rejects and the decoder proceeds to the start-bit check for a
train of any length; consequently success can be reported with a number of
bits other than 13, as the concrete 4-entry train here shows (it decodes
successfully with 1 bit). -/
theorem claim5_length_check_never_rejects :
    (∀ rawlen : Nat, rc5LengthCheckRejects rawlen = false)
    ∧ (decodeRC5_CDI [0, 450, 450, 450] initialIRData false).1 = true
    ∧ (decodeRC5_CDI [0, 450, 450, 450] initialIRData false).2.numberOfBits = 1
    ∧ (1 : Nat) ≠ RC5_CDI_BITS := by
  refine ⟨fun rawlen => ?_, by decide, by decide, by decide⟩
  have h13 : RC5_CDI_BITS = 13 := rfl
  simp only [rc5LengthCheckRejects, h13, Bool.and_eq_false_iff, decide_eq_false_iff_not]
    <;> omega

/-! ## Claim C6 -/

/-- C6: a CDTV train of length exactly 4 whose entry 1 matches the header
mark and whose entry 2 matches the repeat space decodes successfully as a
repeat: command 0xFFFFFF, 4 reported bits, protocol CDTV, and the rest of
the frame (in particular the decoded raw value) untouched, since the
repeat branch returns before any checksum validation. -/
theorem claim6_repeat_decode (train : List Nat) (d : IRData)
    (hlen : train.length = 4)
    (hmark : matchDuration (rawAt train 1) CDTV_HDR_MARK = true)
    (hrpt : matchDuration (rawAt train 2) CDTV_RPT_SPACE = true) :
    decodeCDTV train d =
      (true, { d with numberOfBits := 4, command := 0xFFFFFF,
                      protocol := IRProtocol.CDTV }) := by
  simp [decodeCDTV, CDTV_RAW_REPEAT_LENGTH, hlen, hmark, hrpt]

/-- C6, witness: a concrete repeat train at the nominal timings. -/
theorem claim6_witness :
    decodeCDTV [0, 8850, 2250, 350] initialIRData =
      (true, { initialIRData with numberOfBits := 4, command := 0xFFFFFF,
                                  protocol := IRProtocol.CDTV }) :=
  claim6_repeat_decode [0, 8850, 2250, 350] initialIRData (by decide) (by decide)
    (by decide)

/-! ## Claim C9 -/

/-- C9: for every data value and every valid bit count, sendCDTV emits
exactly the header mark and space, one bit-mark/value-space pair per bit
most significant first (one space of 1250 for a 1, of 450 for a 0), and
the footer bit-mark followed by a space of duration 0. -/
theorem claim9_sendCDTV_call_sequence (data nbits : Nat) (h1 : 0 < nbits)
    (h2 : nbits ≤ 32) :
    (sendCDTV data nbits).calls =
      TxCall.mark CDTV_HDR_MARK :: TxCall.space CDTV_HDR_SPACE ::
        (((bitsMsbFirst data nbits).flatMap fun b =>
            [TxCall.mark CDTV_BIT_MARK,
             TxCall.space (if b then CDTV_ONE_SPACE else CDTV_ZERO_SPACE)])
          ++ [TxCall.mark CDTV_BIT_MARK, TxCall.space 0]) := by
  simp [sendCDTV, cdtvDataCalls_eq_flatMap]

/-! ## Claim C4 -/

theorem decodeCDTV_cases (train : List Nat) (d : IRData) :
    decodeCDTV train d
        = (true, { d with numberOfBits := 4, command := 0xFFFFFF,
                          protocol := IRProtocol.CDTV })
    ∨ decodeCDTV train d = (false, d)
    ∨ ∃ raw, decodePulseDistanceWidthData CDTVProtocolConstants train CDTV_BITS 3
          = some raw
        ∧ (decodeCDTV train d
              = (true, { d with decodedRawData := raw, numberOfBits := CDTV_BITS,
                                protocol := IRProtocol.CDTV })
          ∨ decodeCDTV train d
              = (false, { d with decodedRawData := raw, numberOfBits := CDTV_BITS })) := by
  unfold decodeCDTV
  split
  · simp
  · split
    · simp
    · split
      · simp
      · split
        · simp
        · split
          · simp
          · rename_i raw heq
            right; right
            refine ⟨raw, heq, ?_⟩
            dsimp only
            split <;> simp <;> tauto

theorem decodeRC5_CDI_cases (train : List Nat) (d : IRData) (r : Bool) :
    (decodeRC5_CDI train d r).1 = true ∨ decodeRC5_CDI train d r = (false, d) := by
  unfold decodeRC5_CDI
  split
  · right; rfl
  · dsimp only
    split
    · right; rfl
    · split
      · right; rfl
      · split
        · right; rfl
        · left; rfl

/-- C4, counterexample: the CDTV checksum-failure path leaves a partial
result in the frame.  The train encoding raw value 0 passes every timing
check, the engine writes the decoded value 0 and the bit count into the
frame, and then the checksum step fails (low = 0 and high differs from
0xFFF), so decodeCDTV returns failure with the decoded-raw-value field
changed from its prior value 7 to 0. -/
theorem claim4_counterexample :
    (decodeCDTV (cdtvRawTrainOf 0) { initialIRData with decodedRawData := 7 }).1 = false
    ∧ (decodeCDTV (cdtvRawTrainOf 0)
        { initialIRData with decodedRawData := 7 }).2.decodedRawData = 0
    ∧ ({ initialIRData with decodedRawData := 7 } : IRData).decodedRawData = 7 := by
  decide

/-- C4 as amended: every decode failure leaves the frame unchanged, with
one exception.  decodeRC5_CDI never touches the frame on any failing path.
decodeCDTV leaves address, command, flags and protocol unchanged on every
failing path, and leaves the whole frame unchanged on every failing path
except the checksum failure, where the pulse-distance engine has already
stored the decoded raw value and the bit count in the frame, so those two
fields of the failed frame hold the engine result instead of their prior
values. -/
theorem claim4_failure_preserves_frame :
    (∀ (train : List Nat) (d : IRData), (decodeCDTV train d).1 = false →
      ((decodeCDTV train d).2.address = d.address
        ∧ (decodeCDTV train d).2.command = d.command
        ∧ (decodeCDTV train d).2.flags = d.flags
        ∧ (decodeCDTV train d).2.protocol = d.protocol)
      ∧ ((decodeCDTV train d).2 = d
          ∨ ((decodeCDTV train d).2.numberOfBits = CDTV_BITS
              ∧ decodePulseDistanceWidthData CDTVProtocolConstants train CDTV_BITS 3
                  = some (decodeCDTV train d).2.decodedRawData)))
    ∧ (∀ (train : List Nat) (d : IRData) (r : Bool),
        (decodeRC5_CDI train d r).1 = false → (decodeRC5_CDI train d r).2 = d) := by
  constructor
  · intro train d hfail
    rcases decodeCDTV_cases train d with h | h | ⟨raw, heng, h | h⟩
    · rw [h] at hfail; simp at hfail
    · rw [h]
      exact ⟨⟨rfl, rfl, rfl, rfl⟩, Or.inl rfl⟩
    · rw [h] at hfail; simp at hfail
    · rw [h, heng]
      exact ⟨⟨rfl, rfl, rfl, rfl⟩, Or.inr ⟨rfl, rfl⟩⟩
  · intro train d r hfail
    rcases decodeRC5_CDI_cases train d r with h | h
    · rw [hfail] at h; simp at h
    · rw [h]

/-- C4, witness: the amended preservation applied to two concrete failing
trains, an empty CDTV train and a truncated RC5 train. -/
theorem claim4_witness :
    (decodeCDTV [] initialIRData).2.protocol = initialIRData.protocol
    ∧ (decodeRC5_CDI [0, 450, 450] initialIRData false).2 = initialIRData :=
  ⟨(claim4_failure_preserves_frame.1 [] initialIRData (by decide)).1.2.2.2,
    claim4_failure_preserves_frame.2 [0, 450, 450] initialIRData false (by decide)⟩

/-! ## Claim C10 -/

theorem rc5ToggleBitFacts : ∀ A < 32, ∀ C < 64,
    ((((A <<< 6) ||| 4096) ||| C) &&& 2048 = 0)
    ∧ (((A <<< 6) ||| C) &&& 2048 = 0)
    ∧ (((((A <<< 6) ||| 4096) ||| C) ||| 2048) &&& 2048 ≠ 0)
    ∧ ((((A <<< 6) ||| C) ||| 2048) &&& 2048 ≠ 0) := by
  decide

/-- C10: with automatic toggling enabled, the persisted toggle state
always flips (0 becomes 1, anything nonzero becomes 0, so the new value
always differs from the old), and bit 11 of the emitted word — the toggle
bit — is set exactly when the new state is 1; with automatic toggling
disabled the state is returned unchanged.  Because the state starts at the
sentinel value 1, the first automatically toggled call after startup emits
toggle bit 0. -/
theorem claim10_toggle_lifecycle (aAddress aCommand aNumberOfRepeats s : Nat) :
    ((sendRC5_CDI aAddress aCommand aNumberOfRepeats true s).toggleValue
        = if s = 0 then 1 else 0)
    ∧ (sendRC5_CDI aAddress aCommand aNumberOfRepeats true s).toggleValue ≠ s
    ∧ (((sendRC5_CDI aAddress aCommand aNumberOfRepeats true s).tIRData
          &&& (1 <<< 11) ≠ 0)
        ↔ (sendRC5_CDI aAddress aCommand aNumberOfRepeats true s).toggleValue = 1)
    ∧ (sendRC5_CDI aAddress aCommand aNumberOfRepeats false s).toggleValue = s
    ∧ (sendRC5_CDI aAddress aCommand aNumberOfRepeats true
          sCDILastSendToggleValue).tIRData &&& (1 <<< 11) = 0 := by
  have hA : aAddress &&& 0x1F < 32 := by
    have h := Nat.and_le_right (n := aAddress) (m := 0x1F)
    omega
  by_cases hc : aCommand < 0x40
  · have hfacts := rc5ToggleBitFacts (aAddress &&& 0x1F) hA aCommand hc
    by_cases hs : s = 0
    · simp [sendRC5_CDI, hc, hs, sCDILastSendToggleValue, RC5_CDI_COMMAND_BITS,
        RC5_CDI_ADDRESS_BITS, RC5_CDI_TOGGLE_BIT, hfacts.1, hfacts.2.1,
        hfacts.2.2.1, hfacts.2.2.2]
    · simp [sendRC5_CDI, hc, hs, sCDILastSendToggleValue, RC5_CDI_COMMAND_BITS,
        RC5_CDI_ADDRESS_BITS, RC5_CDI_TOGGLE_BIT, hfacts.1, hfacts.2.1,
        hfacts.2.2.1, hfacts.2.2.2]
      omega
  · have hC : aCommand &&& 0x3F < 64 := by
      have h := Nat.and_le_right (n := aCommand) (m := 0x3F)
      omega
    have hfacts := rc5ToggleBitFacts (aAddress &&& 0x1F) hA (aCommand &&& 0x3F) hC
    by_cases hs : s = 0
    · simp [sendRC5_CDI, hc, hs, sCDILastSendToggleValue, RC5_CDI_COMMAND_BITS,
        RC5_CDI_ADDRESS_BITS, RC5_CDI_TOGGLE_BIT, hfacts.1, hfacts.2.1,
        hfacts.2.2.1, hfacts.2.2.2]
    · simp [sendRC5_CDI, hc, hs, sCDILastSendToggleValue, RC5_CDI_COMMAND_BITS,
        RC5_CDI_ADDRESS_BITS, RC5_CDI_TOGGLE_BIT, hfacts.1, hfacts.2.1,
        hfacts.2.2.1, hfacts.2.2.2]
      omega

/-- C9, witness at data 5 and 3 bits: bits 1,0,1 most significant first. -/
theorem claim9_witness :
    (sendCDTV 5 3).calls =
      TxCall.mark CDTV_HDR_MARK :: TxCall.space CDTV_HDR_SPACE ::
        (((bitsMsbFirst 5 3).flatMap fun b =>
            [TxCall.mark CDTV_BIT_MARK,
             TxCall.space (if b then CDTV_ONE_SPACE else CDTV_ZERO_SPACE)])
          ++ [TxCall.mark CDTV_BIT_MARK, TxCall.space 0]) :=
  claim9_sendCDTV_call_sequence 5 3 (by decide) (by decide)

/-! ## Biphase run-list lemmas -/

theorem flipLevel_of_ne : ∀ (x y : BiLevel), x ≠ y → y = flipLevel x := by
  intro x y h
  cases x <;> cases y <;> simp_all [flipLevel]

theorem levelAt_succ (i : Nat) : levelAt (i + 1) = flipLevel (levelAt i) := by
  rcases Nat.mod_two_eq_zero_or_one i with h | h <;>
    simp [levelAt, Nat.add_mod, h, flipLevel]

theorem expandRuns_cons (l : BiLevel) (k : Nat) (rs : List (BiLevel × Nat)) :
    expandRuns ((l, k) :: rs) = List.replicate k l ++ expandRuns rs := by
  simp [expandRuns]

theorem expandRuns_mergeRuns : ∀ L : List BiLevel, expandRuns (mergeRuns L) = L := by
  intro L
  induction L with
  | nil => rfl
  | cons l rest ih =>
      cases hm : mergeRuns rest with
      | nil =>
          have hrest : rest = [] := by
            rw [hm] at ih
            simpa [expandRuns] using ih.symm
          subst hrest
          simp [mergeRuns, expandRuns]
      | cons p rs =>
          rcases p with ⟨l2, k⟩
          rw [hm, expandRuns_cons] at ih
          by_cases hl : l = l2
          · subst hl
            have hmerge : mergeRuns (l :: rest) = (l, k + 1) :: rs := by
              rw [mergeRuns, hm]
              simp
            rw [hmerge, expandRuns_cons, List.replicate_succ, List.cons_append, ih]
          · have hmerge : mergeRuns (l :: rest) = (l, 1) :: (l2, k) :: rs := by
              rw [mergeRuns, hm]
              simp [hl]
            rw [hmerge, expandRuns_cons, expandRuns_cons, ih]
            simp

theorem mergeRuns_head : ∀ (L : List BiLevel) (p : BiLevel × Nat)
    (rs : List (BiLevel × Nat)), mergeRuns L = p :: rs → L.head? = some p.1 := by
  intro L
  cases L with
  | nil => intro p rs h; simp [mergeRuns] at h
  | cons l rest =>
      intro p rs h
      cases hm : mergeRuns rest with
      | nil =>
          have hmerge : mergeRuns (l :: rest) = [(l, 1)] := by
            rw [mergeRuns, hm]
          rw [hmerge] at h
          cases h
          rfl
      | cons q qs =>
          rcases q with ⟨l2, k⟩
          by_cases hl : l = l2
          · subst hl
            have hmerge : mergeRuns (l :: rest) = (l, k + 1) :: qs := by
              rw [mergeRuns, hm]
              simp
            rw [hmerge] at h
            cases h
            rfl
          · have hmerge : mergeRuns (l :: rest) = (l, 1) :: (l2, k) :: qs := by
              rw [mergeRuns, hm]
              simp [hl]
            rw [hmerge] at h
            cases h
            rfl

theorem mergeRuns_levelsFrom : ∀ (L : List BiLevel) (i : Nat),
    L.head? = some (levelAt i) → LevelsFrom (mergeRuns L) i := by
  intro L
  induction L with
  | nil => intro i _; simp [mergeRuns, LevelsFrom]
  | cons l rest ih =>
      intro i h
      simp only [List.head?_cons, Option.some.injEq] at h
      cases hm : mergeRuns rest with
      | nil =>
          have hmerge : mergeRuns (l :: rest) = [(l, 1)] := by
            rw [mergeRuns, hm]
          rw [hmerge]
          simp only [LevelsFrom]
          exact ⟨h, Nat.le_refl 1, trivial⟩
      | cons p rs =>
          rcases p with ⟨l2, k⟩
          have hrest : rest.head? = some l2 := mergeRuns_head rest (l2, k) rs hm
          by_cases hl : l = l2
          · subst hl
            have hlev := ih i (by rw [hrest, h])
            rw [hm] at hlev
            simp only [LevelsFrom] at hlev
            obtain ⟨_, hk, hrs⟩ := hlev
            have hmerge : mergeRuns (l :: rest) = (l, k + 1) :: rs := by
              rw [mergeRuns, hm]
              simp
            rw [hmerge]
            simp only [LevelsFrom]
            exact ⟨h, by omega, hrs⟩
          · have hl2 : l2 = levelAt (i + 1) := by
              rw [levelAt_succ, ← h]
              exact flipLevel_of_ne l l2 hl
            have hlev := ih (i + 1) (by rw [hrest, hl2])
            rw [hm] at hlev
            have hmerge : mergeRuns (l :: rest) = (l, 1) :: (l2, k) :: rs := by
              rw [mergeRuns, hm]
              simp [hl]
            rw [hmerge]
            simp only [LevelsFrom] at hlev ⊢
            exact ⟨h, Nat.le_refl 1, hlev⟩

/-! ## Cell-count lemmas -/

theorem unitsOf_mul (k : Nat) (hk : 1 ≤ k) :
    unitsOf RC5_CDI_UNIT (k * RC5_CDI_UNIT) = some k := by
  have hdiv : (k * 450 + 450 / 2) / 450 = k := by omega
  have hmatch : matchDuration (k * 450) (k * 450) = true := by
    simp only [matchDuration, Bool.and_eq_true, decide_eq_true_eq]
    refine ⟨⟨by omega, Nat.sub_le _ _⟩, Nat.le_add_right _ _⟩
  simp [unitsOf, RC5_CDI_UNIT, hdiv, hmatch, hk]

theorem unitsOf_bounds (d k : Nat) (h : unitsOf RC5_CDI_UNIT d = some k) :
    1 ≤ k ∧ k ≤ d := by
  simp only [unitsOf, RC5_CDI_UNIT] at h
  split at h
  · rename_i hguard
    simp only [Bool.and_eq_true, decide_eq_true_eq] at hguard
    obtain ⟨hk1, hmatch⟩ := hguard
    cases h
    simp only [matchDuration, Bool.and_eq_true, decide_eq_true_eq] at hmatch
    obtain ⟨⟨hpos, _⟩, _⟩ := hmatch
    constructor
    · exact hk1
    · by_contra hgt
      push_neg at hgt
      omega
  · cases h

/-! ## Expansion of a train into its level sequence -/

theorem expandFrom_of_suffix : ∀ (RS : List (BiLevel × Nat)) (train : List Nat)
    (off : Nat), train.drop off = RS.map (fun p => p.2 * RC5_CDI_UNIT) →
    LevelsFrom RS off →
    expandFrom train RC5_CDI_UNIT off = some (expandRuns RS) := by
  intro RS
  induction RS with
  | nil =>
      intro train off hdrop _
      have hge : train.length ≤ off := List.drop_eq_nil_iff.mp (by simpa using hdrop)
      rw [expandFrom, dif_neg (Nat.not_lt.mpr hge)]
      rfl
  | cons p rs ih =>
      rcases p with ⟨l, k⟩
      intro train off hdrop hlev
      simp only [LevelsFrom] at hlev
      obtain ⟨hl, hk, hrs⟩ := hlev
      have hofflt : off < train.length := by
        by_contra hge
        rw [List.drop_eq_nil_iff.mpr (Nat.le_of_not_lt hge)] at hdrop
        simp at hdrop
      rw [List.drop_eq_getElem_cons hofflt] at hdrop
      simp only [List.map_cons] at hdrop
      injection hdrop with h1 h2
      have hraw : rawAt train off = k * RC5_CDI_UNIT := by
        simp [rawAt, List.getD_eq_getElem?_getD, List.getElem?_eq_getElem hofflt, h1]
      rw [expandFrom, dif_pos hofflt, hraw, unitsOf_mul k hk,
        ih train (off + 1) h2 hrs]
      simp [expandRuns_cons, hl]

theorem expandFrom_length_le (train : List Nat) : ∀ (n off : Nat) (L : List BiLevel),
    train.length - off ≤ n → expandFrom train RC5_CDI_UNIT off = some L →
    L.length ≤ (train.drop off).sum := by
  intro n
  induction n with
  | zero =>
      intro off L hn hexp
      have hge : train.length ≤ off := by omega
      rw [expandFrom, dif_neg (Nat.not_lt.mpr hge)] at hexp
      cases hexp
      simp
  | succ n ih =>
      intro off L hn hexp
      by_cases hlt : off < train.length
      · rw [expandFrom, dif_pos hlt] at hexp
        cases hu : unitsOf RC5_CDI_UNIT (rawAt train off) with
        | none => rw [hu] at hexp; simp at hexp
        | some k =>
            rw [hu] at hexp
            cases hrec : expandFrom train RC5_CDI_UNIT (off + 1) with
            | none => rw [hrec] at hexp; simp at hexp
            | some L2 =>
                rw [hrec] at hexp
                simp only [Option.map_some', Option.some.injEq] at hexp
                have hlen2 := ih (off + 1) L2 (by omega) hrec
                obtain ⟨hk1, hkd⟩ := unitsOf_bounds (rawAt train off) k hu
                have hraw : rawAt train off = train[off] := by
                  simp [rawAt, List.getD_eq_getElem?_getD,
                    List.getElem?_eq_getElem hlt]
                have hsum : (train.drop off).sum
                    = train[off] + (train.drop (off + 1)).sum := by
                  rw [List.drop_eq_getElem_cons hlt, List.sum_cons]
                rw [← hexp, List.length_append, List.length_replicate, hsum]
                omega
      · rw [expandFrom, dif_neg hlt] at hexp
        cases hexp
        simp

/-! ## Simulation of the biphase cursor by the level sequence -/

theorem getBiphaselevel_sim_cons (train : List Nat) (st : BiphaseState)
    (l : BiLevel) (L : List BiLevel) (hwf : WfSt train st)
    (hlev : stateLevels train RC5_CDI_UNIT st = some (l :: L)) :
    st.offset < train.length
    ∧ ∃ st2, getBiphaselevel train RC5_CDI_UNIT st = some (l, st2)
        ∧ stateLevels train RC5_CDI_UNIT st2 = some L ∧ WfSt train st2 := by
  rcases st with ⟨off, u⟩
  cases u with
  | zero =>
      simp only [stateLevels, eq_self_iff_true, if_true] at hlev
      by_cases hlt : off < train.length
      · rw [expandFrom, dif_pos hlt] at hlev
        cases hu : unitsOf RC5_CDI_UNIT (rawAt train off) with
        | none => rw [hu] at hlev; simp at hlev
        | some k =>
            rw [hu] at hlev
            cases hrec : expandFrom train RC5_CDI_UNIT (off + 1) with
            | none => rw [hrec] at hlev; simp at hlev
            | some L2 =>
                rw [hrec] at hlev
                simp only [Option.map_some', Option.some.injEq] at hlev
                have hk1 := (unitsOf_bounds (rawAt train off) k hu).1
                obtain ⟨k2, rfl⟩ : ∃ k2, k = k2 + 1 := ⟨k - 1, by omega⟩
                rw [List.replicate_succ, List.cons_append] at hlev
                have hl2 : levelAt off = l := (List.cons.inj hlev).1
                have hL2 : List.replicate k2 (levelAt off) ++ L2 = L :=
                  (List.cons.inj hlev).2
                refine ⟨hlt, ?_⟩
                cases k2 with
                | zero =>
                    refine ⟨⟨off + 1, 0⟩, ?_, ?_, Or.inl rfl⟩
                    · simp [getBiphaselevel, hlt, hu, hl2]
                    · simp only [stateLevels, eq_self_iff_true, if_true]
                      rw [hrec]
                      simp only [List.replicate_zero, List.nil_append] at hL2
                      rw [hL2]
                | succ k3 =>
                    refine ⟨⟨off, k3 + 1⟩, ?_, ?_, Or.inr hlt⟩
                    · simp [getBiphaselevel, hlt, hu, hl2]
                    · simp only [stateLevels]
                      rw [if_neg (by omega), hrec]
                      simp only [Option.map_some', Option.some.injEq]
                      exact hL2
      · rw [expandFrom, dif_neg hlt] at hlev
        simp at hlev
  | succ u2 =>
      have hlt : off < train.length := by
        rcases hwf with hwf | hwf
        · simp at hwf
        · exact hwf
      simp only [stateLevels, Nat.succ_ne_zero, if_false] at hlev
      cases hrec : expandFrom train RC5_CDI_UNIT (off + 1) with
      | none => rw [hrec] at hlev; simp at hlev
      | some L2 =>
          rw [hrec] at hlev
          simp only [Option.map_some', Option.some.injEq] at hlev
          rw [List.replicate_succ, List.cons_append] at hlev
          have hl2 : levelAt off = l := (List.cons.inj hlev).1
          have hL2 : List.replicate u2 (levelAt off) ++ L2 = L :=
            (List.cons.inj hlev).2
          refine ⟨hlt, ?_⟩
          cases u2 with
          | zero =>
              refine ⟨⟨off + 1, 0⟩, ?_, ?_, Or.inl rfl⟩
              · simp [getBiphaselevel, hl2]
              · simp only [stateLevels, eq_self_iff_true, if_true]
                rw [hrec]
                simp only [List.replicate_zero, List.nil_append] at hL2
                rw [hL2]
          | succ u3 =>
              refine ⟨⟨off, u3 + 1⟩, ?_, ?_, Or.inr hlt⟩
              · simp [getBiphaselevel, hl2]
              · simp only [stateLevels]
                rw [if_neg (by omega), hrec]
                simp only [Option.map_some', Option.some.injEq]
                exact hL2

theorem getBiphaselevel_sim_nil (train : List Nat) (st : BiphaseState)
    (hlev : stateLevels train RC5_CDI_UNIT st = some []) :
    getBiphaselevel train RC5_CDI_UNIT st = none ∧ ¬ st.offset < train.length := by
  rcases st with ⟨off, u⟩
  cases u with
  | zero =>
      simp only [stateLevels, eq_self_iff_true, if_true] at hlev
      by_cases hlt : off < train.length
      · rw [expandFrom, dif_pos hlt] at hlev
        cases hu : unitsOf RC5_CDI_UNIT (rawAt train off) with
        | none => rw [hu] at hlev; simp at hlev
        | some k =>
            rw [hu] at hlev
            cases hrec : expandFrom train RC5_CDI_UNIT (off + 1) with
            | none => rw [hrec] at hlev; simp at hlev
            | some L2 =>
                rw [hrec] at hlev
                simp only [Option.map_some', Option.some.injEq] at hlev
                have hk1 := (unitsOf_bounds (rawAt train off) k hu).1
                have : (List.replicate k (levelAt off) ++ L2).length = 0 := by
                  rw [hlev]
                  rfl
                simp [List.length_append, List.length_replicate] at this
                omega
      · exact ⟨by simp [getBiphaselevel, hlt], hlt⟩
  | succ u2 =>
      simp only [stateLevels, Nat.succ_ne_zero, if_false] at hlev
      cases hrec : expandFrom train RC5_CDI_UNIT (off + 1) with
      | none => rw [hrec] at hlev; simp at hlev
      | some L2 =>
          rw [hrec] at hlev
          simp only [Option.map_some', Option.some.injEq] at hlev
          have : (List.replicate (u2 + 1) (levelAt off) ++ L2).length = 0 := by
            rw [hlev]
            rfl
          simp [List.length_append, List.length_replicate] at this

/-! ## Loop simulation and the RC5 round trip -/

theorem rc5DecodeLoop_sim (train : List Nat) : ∀ (fuel : Nat) (L : List BiLevel)
    (st : BiphaseState) (b acc : Nat), WfSt train st →
    stateLevels train RC5_CDI_UNIT st = some L → L.length + 1 ≤ fuel →
    rc5DecodeLoop train fuel st b acc = levelPairsLoop L b acc := by
  intro fuel
  induction fuel with
  | zero => intro L st b acc _ _ hf; omega
  | succ fuel ih =>
      intro L st b acc hwf hlev hf
      cases L with
      | nil =>
          obtain ⟨_, hnl⟩ := getBiphaselevel_sim_nil train st hlev
          rw [rc5DecodeLoop, if_neg hnl]
          rfl
      | cons l1 L1 =>
          obtain ⟨hlt, st1, hget1, hlev1, hwf1⟩ :=
            getBiphaselevel_sim_cons train st l1 L1 hwf hlev
          rw [rc5DecodeLoop, if_pos hlt, hget1]
          dsimp only
          cases L1 with
          | nil =>
              obtain ⟨hget2, _⟩ := getBiphaselevel_sim_nil train st1 hlev1
              rw [hget2]
              rfl
          | cons l2 L2 =>
              obtain ⟨_, st2, hget2, hlev2, hwf2⟩ :=
                getBiphaselevel_sim_cons train st1 l2 L2 hwf1 hlev1
              rw [hget2]
              dsimp only
              have hlen : L2.length + 1 ≤ fuel := by
                simp only [List.length_cons] at hf
                omega
              by_cases h12 : l1 = BiLevel.space ∧ l2 = BiLevel.mark
              · rw [if_pos h12, levelPairsLoop, if_pos h12]
                exact ih L2 st2 (b + 1) (2 * acc + 1) hwf2 hlev2 hlen
              · rw [if_neg h12]
                by_cases h21 : l1 = BiLevel.mark ∧ l2 = BiLevel.space
                · rw [if_pos h21, levelPairsLoop, if_neg h12, if_pos h21]
                  exact ih L2 st2 (b + 1) (2 * acc) hwf2 hlev2 hlen
                · rw [if_neg h21, levelPairsLoop, if_neg h12, if_neg h21]

theorem levelPairsLoop_flatMap : ∀ (bits : List Bool) (b acc : Nat),
    levelPairsLoop (bits.flatMap bitHalfCells) b acc
      = some (b + bits.length, bits.foldl (fun a x => 2 * a + cond x 1 0) acc) := by
  intro bits
  induction bits with
  | nil => intro b acc; simp [levelPairsLoop]
  | cons x bs ih =>
      intro b acc
      have harith : b + (bs.length + 1) = b + 1 + bs.length := by omega
      cases x
      · rw [show (false :: bs).flatMap bitHalfCells
            = BiLevel.mark :: BiLevel.space :: bs.flatMap bitHalfCells from rfl]
        rw [levelPairsLoop, if_neg (by simp), if_pos ⟨rfl, rfl⟩, ih]
        simp only [List.length_cons, List.foldl_cons, cond_false, Nat.add_zero]
        rw [harith]
      · rw [show (true :: bs).flatMap bitHalfCells
            = BiLevel.space :: BiLevel.mark :: bs.flatMap bitHalfCells from rfl]
        rw [levelPairsLoop, if_pos ⟨rfl, rfl⟩, ih]
        simp only [List.length_cons, List.foldl_cons, cond_true]
        rw [harith]

theorem bitHalfCells_flat_length (bits : List Bool) :
    (bits.flatMap bitHalfCells).length = 2 * bits.length := by
  induction bits with
  | nil => rfl
  | cons x bs ih =>
      cases x <;>
        simp only [List.flatMap_cons, bitHalfCells, Bool.false_eq_true, if_false,
          if_pos, List.cons_append, List.nil_append, List.length_cons, ih,
          List.length_append] <;>
        omega

theorem rc5RawTrain_eq (w : Nat) :
    rc5RawTrainOf w
      = 0 :: (mergeRuns (rc5LevelSeq w)).map (fun p => p.2 * RC5_CDI_UNIT) := by
  simp only [rc5RawTrainOf, sendBiphaseData, rc5LevelSeq, List.map_map]
  congr 1
  refine List.map_congr_left fun p _ => ?_
  rcases p with ⟨l, k⟩
  cases l <;> rfl

/-- Round trip of the biphase emission through decodeRC5_CDI for every
13-bit word: decoding the received train reconstructs the word and fills
every frame field from it. -/
theorem decodeRC5_roundtrip (w : Nat) (d : IRData) (r : Bool)
    (hw : w < 2 ^ RC5_CDI_BITS) :
    decodeRC5_CDI (rc5RawTrainOf w) d r
      = (true, { d with
          numberOfBits := RC5_CDI_BITS
          decodedRawData := w
          command := (w &&& 0x3F) + (if w &&& (1 <<< 12) = 0 then 0x40 else 0)
          address := (w >>> RC5_CDI_COMMAND_BITS) &&& 0x1F
          flags := ⟨r, w &&& (1 <<< 11) ≠ 0, true⟩
          protocol := IRProtocol.RC5_CDI }) := by
  have hexp : expandFrom (rc5RawTrainOf w) RC5_CDI_UNIT 1 = some (rc5LevelSeq w) := by
    rw [rc5RawTrain_eq]
    have hdrop : (0 :: (mergeRuns (rc5LevelSeq w)).map
        (fun p => p.2 * RC5_CDI_UNIT)).drop 1
        = (mergeRuns (rc5LevelSeq w)).map (fun p => p.2 * RC5_CDI_UNIT) := rfl
    have hlf : LevelsFrom (mergeRuns (rc5LevelSeq w)) 1 :=
      mergeRuns_levelsFrom _ 1 (by simp [rc5LevelSeq, levelAt])
    have h := expandFrom_of_suffix (mergeRuns (rc5LevelSeq w)) _ 1 hdrop hlf
    rw [expandRuns_mergeRuns] at h
    exact h
  have hwf0 : WfSt (rc5RawTrainOf w) ⟨1, 0⟩ := Or.inl rfl
  have hlev0 : stateLevels (rc5RawTrainOf w) RC5_CDI_UNIT ⟨1, 0⟩
      = some (BiLevel.mark :: (bitsMsbFirst w RC5_CDI_BITS).flatMap bitHalfCells) := by
    simp only [stateLevels, eq_self_iff_true, if_true]
    exact hexp
  obtain ⟨_, st1, hget1, hlev1, hwf1⟩ :=
    getBiphaselevel_sim_cons (rc5RawTrainOf w) ⟨1, 0⟩ BiLevel.mark
      ((bitsMsbFirst w RC5_CDI_BITS).flatMap bitHalfCells) hwf0 hlev0
  have hfuel : ((bitsMsbFirst w RC5_CDI_BITS).flatMap bitHalfCells).length + 1
      ≤ (rc5RawTrainOf w).sum + (rc5RawTrainOf w).length + 2 := by
    have h1 := expandFrom_length_le (rc5RawTrainOf w) (rc5RawTrainOf w).length 1
      (rc5LevelSeq w) (by omega) hexp
    have h2 : ((rc5RawTrainOf w).drop 1).sum ≤ (rc5RawTrainOf w).sum := by
      rw [rc5RawTrain_eq]
      simp
    have h3 : (rc5LevelSeq w).length
        = ((bitsMsbFirst w RC5_CDI_BITS).flatMap bitHalfCells).length + 1 := by
      simp [rc5LevelSeq]
    omega
  have hloop := rc5DecodeLoop_sim (rc5RawTrainOf w)
    ((rc5RawTrainOf w).sum + (rc5RawTrainOf w).length + 2)
    ((bitsMsbFirst w RC5_CDI_BITS).flatMap bitHalfCells) st1 0 0 hwf1 hlev1 hfuel
  rw [levelPairsLoop_flatMap] at hloop
  rw [foldBit_eq, bitsMsbFirst_length] at hloop
  simp only [Nat.zero_add, Nat.zero_mul, Nat.mod_eq_of_lt hw] at hloop
  simp only [decodeRC5_CDI, rc5LengthCheckRejects_false, Bool.false_eq_true,
    if_false, initBiphaselevel]
  rw [hget1]
  simp only [ne_eq, not_true_eq_false, if_false, hloop]

/-! ## Claim C8 -/

/-- C8: both engines round-trip.  Pulse-distance/width: for every
checksum-valid 24-bit value, decoding the received emission of sendCDTV
reconstructs the value exactly.  Biphase: for every 13-bit word, decoding
the received emission of the biphase engine reconstructs the word
exactly. -/
theorem claim8_roundtrip :
    (∀ (v : Nat) (d : IRData), v < 2 ^ CDTV_BITS →
        (v &&& 0xFFF) ^^^ (v >>> 12) = 0xFFF →
        ((decodeCDTV (cdtvRawTrainOf v) d).1 = true
          ∧ (decodeCDTV (cdtvRawTrainOf v) d).2.decodedRawData = v))
    ∧ (∀ (w : Nat) (d : IRData) (r : Bool), w < 2 ^ RC5_CDI_BITS →
        ((decodeRC5_CDI (rc5RawTrainOf w) d r).1 = true
          ∧ (decodeRC5_CDI (rc5RawTrainOf w) d r).2.decodedRawData = w)) := by
  constructor
  · intro v d hv hchk
    rw [decodeCDTV_roundtrip v d hv hchk]
    exact ⟨rfl, rfl⟩
  · intro w d r hw
    rw [decodeRC5_roundtrip w d r hw]
    exact ⟨rfl, rfl⟩

/-- C8, witness: the round trips applied to the checksum-valid CDTV value
0x000FFF and to the RC5 word 0x1476 documented in the source. -/
theorem claim8_witness :
    ((decodeCDTV (cdtvRawTrainOf 0x000FFF) initialIRData).1 = true
      ∧ (decodeCDTV (cdtvRawTrainOf 0x000FFF) initialIRData).2.decodedRawData
          = 0x000FFF)
    ∧ ((decodeRC5_CDI (rc5RawTrainOf 0x1476) initialIRData false).1 = true
      ∧ (decodeRC5_CDI (rc5RawTrainOf 0x1476) initialIRData false).2.decodedRawData
          = 0x1476) :=
  ⟨claim8_roundtrip.1 0x000FFF initialIRData (by decide) (by decide),
    claim8_roundtrip.2 0x1476 initialIRData false (by decide)⟩

/-! ## Claim C7 -/

theorem rc5CommandBitFacts : ∀ A < 32, ∀ C < 64,
    (((A <<< 6) ||| C) < 8192
      ∧ ((A <<< 6) ||| C) &&& 63 = C
      ∧ ((A <<< 6) ||| C) &&& 4096 = 0)
    ∧ ((((A <<< 6) ||| C) ||| 2048) < 8192
      ∧ (((A <<< 6) ||| C) ||| 2048) &&& 63 = C
      ∧ (((A <<< 6) ||| C) ||| 2048) &&& 4096 = 0) := by
  decide

theorem cmd_mask_add : ∀ c < 128, 64 ≤ c → (c &&& 63) + 64 = c := by
  decide

/-- C7: for every command in the extended range 0x40 to 0x7F, the encoder
masks the command to its low six bits and leaves the field bit (bit 12)
clear, and the decoder, seeing the clear field bit, adds 0x40 back, so the
command round-trips exactly through the full send and decode pipeline,
for any address, repeat count, toggle mode and toggle state. -/
theorem claim7_rc5x_command_roundtrip (aAddress aCommand aNumberOfRepeats s : Nat)
    (auto : Bool) (d : IRData) (r : Bool)
    (h1 : 0x40 ≤ aCommand) (h2 : aCommand ≤ 0x7F) :
    ((sendRC5_CDI aAddress aCommand aNumberOfRepeats auto s).tIRData &&& 4096 = 0)
    ∧ ((sendRC5_CDI aAddress aCommand aNumberOfRepeats auto s).tIRData &&& 63
        = aCommand &&& 63)
    ∧ (decodeRC5_CDI
        (rc5RawTrainOf (sendRC5_CDI aAddress aCommand aNumberOfRepeats auto s).tIRData)
        d r).1 = true
    ∧ (decodeRC5_CDI
        (rc5RawTrainOf (sendRC5_CDI aAddress aCommand aNumberOfRepeats auto s).tIRData)
        d r).2.command = aCommand := by
  have hc : ¬ aCommand < 0x40 := by omega
  have hA : aAddress &&& 0x1F < 32 := by
    have h := Nat.and_le_right (n := aAddress) (m := 0x1F)
    omega
  have hC : aCommand &&& 0x3F < 64 := by
    have h := Nat.and_le_right (n := aCommand) (m := 0x3F)
    omega
  have hfacts := rc5CommandBitFacts (aAddress &&& 0x1F) hA (aCommand &&& 0x3F) hC
  have hcmd : (aCommand &&& 63) + 64 = aCommand := cmd_mask_add aCommand (by omega) h1
  have hword : (sendRC5_CDI aAddress aCommand aNumberOfRepeats auto s).tIRData
      = ((aAddress &&& 0x1F) <<< 6 ||| (aCommand &&& 0x3F))
        ||| (if auto = true ∧ s = 0 then 2048 else 0) := by
    cases auto
    · simp [sendRC5_CDI, hc, RC5_CDI_COMMAND_BITS, RC5_CDI_ADDRESS_BITS,
        RC5_CDI_TOGGLE_BIT]
    · by_cases hs : s = 0
      · simp [sendRC5_CDI, hc, hs, RC5_CDI_COMMAND_BITS, RC5_CDI_ADDRESS_BITS,
          RC5_CDI_TOGGLE_BIT]
      · simp [sendRC5_CDI, hc, hs, RC5_CDI_COMMAND_BITS, RC5_CDI_ADDRESS_BITS,
          RC5_CDI_TOGGLE_BIT]
  by_cases hts : auto = true ∧ s = 0
  · rw [hword, if_pos hts]
    have hlt : (((aAddress &&& 0x1F) <<< 6 ||| (aCommand &&& 0x3F)) ||| 2048)
        < 2 ^ RC5_CDI_BITS := hfacts.2.1
    rw [decodeRC5_roundtrip _ d r hlt]
    refine ⟨hfacts.2.2.2, ?_, rfl, ?_⟩
    · rw [hfacts.2.2.1]
    · show ((((aAddress &&& 0x1F) <<< 6 ||| (aCommand &&& 0x3F)) ||| 2048) &&& 0x3F)
        + (if (((aAddress &&& 0x1F) <<< 6 ||| (aCommand &&& 0x3F)) ||| 2048)
            &&& (1 <<< 12) = 0 then 0x40 else 0) = aCommand
      rw [show (1 <<< 12 : Nat) = 4096 from rfl, hfacts.2.2.1, hfacts.2.2.2,
        if_pos rfl]
      exact hcmd
  · rw [hword, if_neg hts, Nat.or_zero]
    have hlt : ((aAddress &&& 0x1F) <<< 6 ||| (aCommand &&& 0x3F))
        < 2 ^ RC5_CDI_BITS := hfacts.1.1
    rw [decodeRC5_roundtrip _ d r hlt]
    refine ⟨hfacts.1.2.2, ?_, rfl, ?_⟩
    · rw [hfacts.1.2.1]
    · show (((aAddress &&& 0x1F) <<< 6 ||| (aCommand &&& 0x3F)) &&& 0x3F)
        + (if ((aAddress &&& 0x1F) <<< 6 ||| (aCommand &&& 0x3F))
            &&& (1 <<< 12) = 0 then 0x40 else 0) = aCommand
      rw [show (1 <<< 12 : Nat) = 4096 from rfl, hfacts.1.2.1, hfacts.1.2.2,
        if_pos rfl]
      exact hcmd

/-- C7, witness: the pipeline at address 0x11 and command 0x76, the RC5X
example documented in the source comment. -/
theorem claim7_witness :
    (decodeRC5_CDI
      (rc5RawTrainOf (sendRC5_CDI 0x11 0x76 0 false 1).tIRData)
      initialIRData false).2.command = 0x76 :=
  (claim7_rc5x_command_roundtrip 0x11 0x76 0 1 false initialIRData false
    (by decide) (by decide)).2.2.2

/-- C5, witness: the length check evaluated at a concrete length. -/
theorem claim5_witness : rc5LengthCheckRejects 20 = false :=
  claim5_length_check_never_rejects.1 20

/-- C10, witness: with the startup state 1, the first automatic call flips
the state to 0 and emits toggle bit 0. -/
theorem claim10_witness :
    (sendRC5_CDI 0x11 0x36 0 true sCDILastSendToggleValue).toggleValue = 0
    ∧ (sendRC5_CDI 0x11 0x36 0 true sCDILastSendToggleValue).tIRData
        &&& (1 <<< 11) = 0 := by
  have h := claim10_toggle_lifecycle 0x11 0x36 0 sCDILastSendToggleValue
  exact ⟨by rw [h.1]; decide, h.2.2.2.2⟩
